import Mathlib

/-!
# VescOPV: the sampling-and-protection loop of `src/main.cpp`

Shallow embedding of the firmware's globals, of `NewDataReadyISR`, `setup`,
`manage_mofset`, `check_voltage` and `loop`, followed by the properties proved
about them.

Modelling conventions.

* `float` and `double` values are exact rationals: rounding, infinities and NaN
  are outside the model. A float division whose divisor is zero has no value in
  the model (`none`).
* `int` is the 32-bit two's-complement integer of the target.
* The main thread is a small-step machine whose program points are the
  statements of `loop` and of the functions it calls. The data-ready interrupt
  may fire between any two steps, so a schedule is a list of events.
* A `while` loop that cannot be bounded by the program itself is run one
  iteration per step; "never returns" is "every schedule stays at that program
  point".
-/

namespace VescOPV

/-! ## The indicator collaborator -/

/-- Modelled from the spec: the light effect of an indicator request ("on, off,
blink with on/off durations"); the JLed library is not part of the sources. -/
inductive Effect where
  | on
  | off
  | blink (on_ms off_ms : Nat)
deriving DecidableEq

/-- Modelled from the spec: a declarative pattern request of the indicator
collaborator ("on, off, blink with on/off durations and repeat count, optional
trailing delay, finite or infinite repeat"). The fields record the arguments the
program passes: `Repeat(n)`, `DelayAfter(ms)` and whether `Forever()` is given. -/
structure Pattern where
  effect : Effect
  repeat_count : Nat
  delay_after : Nat
  forever : Bool
deriving DecidableEq

/-- Modelled from the spec: the indicator object `status_led`, i.e. the pattern
last requested and the number of animation steps taken since the request. -/
structure JLed where
  pattern : Pattern
  elapsed : Nat
deriving DecidableEq

/-- Modelled from the spec: length of one pass of a pattern on the animation
clock (repetitions of the effect followed by the trailing delay). -/
def Pattern.duration (p : Pattern) : Nat :=
  match p.effect with
  | .blink on_ms off_ms => p.repeat_count * (on_ms + off_ms) + p.delay_after
  | _ => p.repeat_count + p.delay_after

/-- Modelled from the spec: a pattern request replaces the current pattern and
restarts the animation. -/
def JLed.request (p : Pattern) : JLed := { pattern := p, elapsed := 0 }

/-- Modelled from the spec: `Update()`, the explicit "advance animation" call;
one call is one tick of the animation clock. -/
def JLed.Update (l : JLed) : JLed := { l with elapsed := l.elapsed + 1 }

/-- Modelled from the spec: `IsRunning()`, "is the current pattern still
running". A pattern with infinite repeat is always running; a finite one runs
until its duration has elapsed. -/
def JLed.IsRunning (l : JLed) : Bool :=
  l.pattern.forever || decide (l.elapsed < l.pattern.duration)

/-- Line 97: `Blink(250, 250).Repeat(5)`. -/
def startup_pattern : Pattern :=
  { effect := .blink 250 250, repeat_count := 5, delay_after := 0, forever := false }

/-- Line 105: `On()`. -/
def on_pattern : Pattern :=
  { effect := .on, repeat_count := 1, delay_after := 0, forever := false }

/-- Line 112: `Off()`. -/
def off_pattern : Pattern :=
  { effect := .off, repeat_count := 1, delay_after := 0, forever := false }

/-- Line 125: `Blink(250,750).Repeat(2).DelayAfter(2000).Forever()`. -/
def over_voltage_pattern : Pattern :=
  { effect := .blink 250 750, repeat_count := 2, delay_after := 2000, forever := true }

/-- Line 133: `Blink(250,750).Repeat(3).DelayAfter(2000).Forever()`. -/
def under_voltage_pattern : Pattern :=
  { effect := .blink 250 750, repeat_count := 3, delay_after := 2000, forever := true }

/-! ## Globals -/

/-- Line 29: `constexpr float start_resistor = 36.2`. -/
def start_resistor : ℚ := 362 / 10

/-- Line 30: `constexpr float stop_resistor = 36.1`. -/
def stop_resistor : ℚ := 361 / 10

/-- Line 21: `constexpr int VD_R1 = 100000`. -/
def VD_R1 : Int := 100000

/-- Line 22: `constexpr int VD_R2 = 10000`. -/
def VD_R2 : Int := 10000

/-- The mutable globals of `main.cpp`, the level of `MOFSET_PIN`, and one
observation that is not a program variable: `fetched`, the raw codes returned so
far by `ads.getLastConversionResults()`, oldest first. -/
structure State where
  mofset_on : Bool
  mofset_pin : Bool
  power_voltage : ℚ
  divisor_voltage : ℚ
  min_voltage : ℚ
  max_voltage : ℚ
  new_data : Bool
  status_led : JLed
  fetched : List Int
deriving DecidableEq

/-- The globals as initialised at lines 18-44, before `setup` runs. -/
def boot : State :=
  { mofset_on := false
    mofset_pin := false
    power_voltage := 36
    divisor_voltage := 0
    min_voltage := 0
    max_voltage := 0
    new_data := false
    status_led := JLed.request off_pattern
    fetched := [] }

/-! ## Functions -/

/-- Lines 45-47: the edge callback. -/
def NewDataReadyISR (s : State) : State := { s with new_data := true }

/-- Addition of two `int` values on the 32-bit target (two's complement). -/
def int_add (a b : Int) : Int := (a + b + 2 ^ 31) % 2 ^ 32 - 2 ^ 31

/-- Line 98: the loop `while (status_led.IsRunning()) {status_led.Update();}`
with a bound on the number of iterations; `none` when the loop is still running
at the bound. -/
def wait_led : Nat → JLed → Option JLed
  | 0, _ => none
  | fuel + 1, led => if led.IsRunning then wait_led fuel led.Update else some led

/-- Lines 49-99: `setup`, with the divider resistors as parameters (the program
is `setup VD_R1 VD_R2`). `ads_ok` is the result of `ads.begin()`; on `false`
the function requests an infinite blink and enters `while (1)` at line 74, so
it never returns (`none`). Serial
output, pin configuration and the ADC start have no effect on the state. In
line 88 the product `power_voltage * VD_R2` is a float, so the division is a
float division; in line 93 every operation is on doubles. -/
def setup (R1 R2 : Int) (ads_ok : Bool) (fuel : Nat) (s : State) : Option State :=
  let s := { s with mofset_pin := false }
  if !ads_ok then
    none
  else
    let s :=
      if s.divisor_voltage = 0 then
        { s with divisor_voltage := s.power_voltage * (R2 : ℚ) / ((int_add R1 R2 : Int) : ℚ) }
      else s
    let s := { s with min_voltage := 8 / 10 * s.power_voltage }
    let s := { s with max_voltage := 95 / 100 * (4096 / 1000) * ((int_add R1 R2 : Int) : ℚ) / (R2 : ℚ) }
    let s := { s with status_led := JLed.request startup_pattern }
    (wait_led fuel s.status_led).map fun led => { s with status_led := led }

/-- Lines 101-115: `manage_mofset`. -/
def manage_mofset (voltage : ℚ) (s : State) : State :=
  let s :=
    if !s.mofset_on && decide (voltage ≥ start_resistor) then
      { s with mofset_pin := true, mofset_on := true, status_led := JLed.request on_pattern }
    else s
  if s.mofset_on && decide (voltage ≤ stop_resistor) then
    { s with mofset_pin := false, mofset_on := false, status_led := JLed.request off_pattern }
  else s

/-- Modelled from the spec: `ads.computeVolts` of the ADC collaborator, "the
ADC's fixed per-bit scale"; at the gain selected in line 64 the range is
4.096 V over 32768 codes (0.125 mV per bit, as logged in line 59). -/
def computeVolts (raw : Int) : ℚ := (raw : ℚ) * (4096 / 1000 / 32768)

/-- Line 120: `power_voltage * (ads_voltage / divisor_voltage)`; no value when
the divisor is zero. -/
def source_voltage (s : State) (ads_voltage : ℚ) : Option ℚ :=
  if s.divisor_voltage = 0 then none
  else some (s.power_voltage * (ads_voltage / s.divisor_voltage))

/-- Program points of the main thread after `setup`. -/
inductive PC where
  /-- Line 145: `if (new_data)`. -/
  | loop_test
  /-- Lines 118-126: fetch, estimate, over-voltage test. -/
  | check_voltage
  /-- Line 127: the wait loop of the over-voltage branch. -/
  | over_wait (voltage : ℚ)
  /-- Lines 131-134: under-voltage test. -/
  | under_check (voltage : ℚ)
  /-- Line 135: the wait loop of the under-voltage branch. -/
  | under_wait (voltage : ℚ)
  /-- Line 148: `manage_mofset(voltage)`, with the value returned at line 139. -/
  | manage (voltage : ℚ)
  /-- Line 150: `new_data = false`. -/
  | clear_flag
  /-- Line 154: `status_led.Update()`. -/
  | led_update
deriving DecidableEq

/-- What can happen next: the falling edge on `READY_PIN` runs the callback, or
the main thread executes the statement at its program point; `raw` is what
`ads.getLastConversionResults()` would return at that moment. -/
inductive Event where
  | edge
  | cpu (raw : Int)
deriving DecidableEq

/-- The statement at a program point (lines 117-155), returning the next
program point. `none` only when line 120 divides by zero. -/
def exec (raw : Int) : PC → State → Option (PC × State)
  | .loop_test, s =>
      if s.new_data then some (.check_voltage, s) else some (.led_update, s)
  | .check_voltage, s =>
      match source_voltage s (computeVolts raw) with
      | none => none
      | some voltage =>
          let s := { s with fetched := s.fetched ++ [raw] }
          if voltage > s.max_voltage then
            some (.over_wait voltage,
              { s with status_led := JLed.request over_voltage_pattern })
          else some (.under_check voltage, s)
  | .over_wait voltage, s =>
      if s.status_led.IsRunning then
        some (.over_wait voltage, { s with status_led := s.status_led.Update })
      else some (.under_check voltage, s)
  | .under_check voltage, s =>
      if voltage < s.min_voltage then
        some (.under_wait voltage,
          { s with status_led := JLed.request under_voltage_pattern })
      else some (.manage voltage, s)
  | .under_wait voltage, s =>
      if s.status_led.IsRunning then
        some (.under_wait voltage, { s with status_led := s.status_led.Update })
      else some (.manage voltage, s)
  | .manage voltage, s => some (.clear_flag, manage_mofset voltage s)
  | .clear_flag, s => some (.led_update, { s with new_data := false })
  | .led_update, s => some (.loop_test, { s with status_led := s.status_led.Update })

/-- One event. The callback preempts the main thread and leaves its program
point where it was. -/
def step : Event → PC × State → Option (PC × State)
  | .edge, (pc, s) => some (pc, NewDataReadyISR s)
  | .cpu raw, (pc, s) => exec raw pc s

/-- A schedule of events, executed in order. -/
def run : List Event → PC × State → Option (PC × State)
  | [], c => some c
  | e :: es, c => (step e c).bind (run es)

/-- The state in which `loop` is first entered with the compiled-in
configuration: `boot` after `setup` (see `setup_boot`). -/
def ready : State :=
  { boot with
    divisor_voltage := 36 / 11
    min_voltage := 288 / 10
    max_voltage := 428032 / 10000
    status_led := { pattern := startup_pattern, elapsed := 2500 } }

/-- Test harness for `manage_mofset`: feed the readings one by one and record
the switch state after each call. -/
def switch_sequence : List ℚ → State → List Bool
  | [], _ => []
  | v :: vs, s => (manage_mofset v s).mofset_on :: switch_sequence vs (manage_mofset v s)

/-- The state in which `setup` returns (see `setup_eq`): lines 55, 87-94, and
the startup pattern of line 97 played to its end. -/
def calibrated (R1 R2 : Int) (s : State) : State :=
  { s with
    mofset_pin := false
    divisor_voltage :=
      if s.divisor_voltage = 0 then
        s.power_voltage * (R2 : ℚ) / ((int_add R1 R2 : Int) : ℚ)
      else s.divisor_voltage
    min_voltage := 8 / 10 * s.power_voltage
    max_voltage := 95 / 100 * (4096 / 1000) * ((int_add R1 R2 : Int) : ℚ) / (R2 : ℚ)
    status_led := { pattern := startup_pattern, elapsed := 2500 } }

/-- What a wait loop on an infinite pattern leaves untouched: the switch, its
output line, the fetched codes, the pattern; and the flag is never cleared. -/
def Frozen (s s1 : State) : Prop :=
  s1.mofset_on = s.mofset_on ∧ s1.mofset_pin = s.mofset_pin ∧ s1.fetched = s.fetched ∧
    s1.status_led.pattern = s.status_led.pattern ∧ s1.min_voltage = s.min_voltage ∧
    (s.new_data = true → s1.new_data = true)

/-! ## Auxiliary facts -/

theorem wait_led_forever (fuel : Nat) :
    ∀ led : JLed, led.pattern.forever = true → wait_led fuel led = none := by
  induction fuel with
  | zero => intro led _; rfl
  | succ n ih =>
      intro led h
      have hrun : led.IsRunning = true := by simp [JLed.IsRunning, h]
      simp only [wait_led, hrun, if_true]
      exact ih _ (by simpa [JLed.Update] using h)

theorem wait_led_finite (n : Nat) :
    ∀ (led : JLed) (fuel : Nat), led.pattern.forever = false →
      led.pattern.duration ≤ led.elapsed + n → n < fuel →
      wait_led fuel led =
        some { pattern := led.pattern, elapsed := max led.elapsed led.pattern.duration } := by
  induction n with
  | zero =>
      intro led fuel hf hd hfuel
      obtain ⟨k, rfl⟩ : ∃ k, fuel = k + 1 := ⟨fuel - 1, by omega⟩
      have hrun : led.IsRunning = false := by
        simp [JLed.IsRunning, hf]; omega
      have hmax : max led.elapsed led.pattern.duration = led.elapsed := by
        apply max_eq_left; omega
      simp [wait_led, hrun, hmax]
  | succ n ih =>
      intro led fuel hf hd hfuel
      obtain ⟨k, rfl⟩ : ∃ k, fuel = k + 1 := ⟨fuel - 1, by omega⟩
      by_cases hlt : led.elapsed < led.pattern.duration
      · have hrun : led.IsRunning = true := by simp [JLed.IsRunning, hlt]
        have h := ih led.Update k (by simpa [JLed.Update] using hf)
          (by simp only [JLed.Update]; omega) (by omega)
        have hmax : max (led.elapsed + 1) led.pattern.duration
            = max led.elapsed led.pattern.duration := by
          rw [max_eq_right (by omega), max_eq_right (by omega)]
        simp only [wait_led, hrun, if_true, h]
        simp [JLed.Update, hmax]
      · have hrun : led.IsRunning = false := by
          simp [JLed.IsRunning, hf]; omega
        have hmax : max led.elapsed led.pattern.duration = led.elapsed := by
          apply max_eq_left; omega
        simp [wait_led, hrun, hmax]

theorem int_add_exact (a b : Int) (hlo : -2 ^ 31 ≤ a + b) (hhi : a + b < 2 ^ 31) :
    int_add a b = a + b := by
  unfold int_add
  rw [Int.emod_eq_of_lt (by omega) (by omega)]
  omega

theorem int_add_pos_ne_zero (a b : Int) (ha : 0 < a) (ha' : a < 2 ^ 31)
    (hb : 0 < b) (hb' : b < 2 ^ 31) : int_add a b ≠ 0 := by
  unfold int_add
  omega

theorem setup_eq (R1 R2 : Int) (fuel : Nat) (s : State) (hfuel : 2500 < fuel) :
    setup R1 R2 true fuel s = some (calibrated R1 R2 s) := by
  have hw := wait_led_finite 2500 (JLed.request startup_pattern) fuel rfl
    (by simp [JLed.request, startup_pattern, Pattern.duration]) hfuel
  have hmax : max (JLed.request startup_pattern).elapsed
      (JLed.request startup_pattern).pattern.duration = 2500 := by
    simp [JLed.request, startup_pattern, Pattern.duration]
  rw [hmax] at hw
  simp only [JLed.request] at hw
  unfold setup calibrated
  by_cases h0 : s.divisor_voltage = 0
  · simp [h0, hw, JLed.request]
  · simp [h0, hw, JLed.request]

theorem calibrated_divisor_ne_zero (R1 R2 : Int) (s : State)
    (hR1 : 0 < R1) (hR1int : R1 < 2 ^ 31) (hR2 : 0 < R2) (hR2int : R2 < 2 ^ 31)
    (hpower : s.power_voltage ≠ 0) : (calibrated R1 R2 s).divisor_voltage ≠ 0 := by
  simp only [calibrated]
  split_ifs with h0
  · have hsum : ((int_add R1 R2 : Int) : ℚ) ≠ 0 := by
      exact_mod_cast int_add_pos_ne_zero R1 R2 hR1 hR1int hR2 hR2int
    have hr2 : (R2 : ℚ) ≠ 0 := by exact_mod_cast hR2.ne'
    exact div_ne_zero (mul_ne_zero hpower hr2) hsum
  · exact h0

theorem setup_boot : setup VD_R1 VD_R2 true 2501 boot = some ready := by
  rw [setup_eq VD_R1 VD_R2 2501 boot (by decide)]
  simp [calibrated, boot, ready, VD_R1, VD_R2, int_add]
  norm_num

theorem run_cons (e : Event) (es : List Event) (c : PC × State) :
    run (e :: es) c = (step e c).bind (run es) := rfl

theorem run_append (es fs : List Event) :
    ∀ c : PC × State, run (es ++ fs) c = (run es c).bind (run fs) := by
  induction es with
  | nil => intro c; rfl
  | cons e es ih =>
      intro c
      simp only [List.cons_append, run_cons]
      cases step e c with
      | none => rfl
      | some c1 => simpa using ih c1

/-- No statement after `setup` assigns the configuration globals. -/
theorem step_config (e : Event) (pc pc1 : PC) (s s1 : State)
    (h : step e (pc, s) = some (pc1, s1)) :
    s1.power_voltage = s.power_voltage ∧ s1.divisor_voltage = s.divisor_voltage ∧
      s1.min_voltage = s.min_voltage ∧ s1.max_voltage = s.max_voltage := by
  cases e with
  | edge =>
      simp only [step, Option.some.injEq, Prod.mk.injEq] at h
      obtain ⟨-, rfl⟩ := h
      simp [NewDataReadyISR]
  | cpu raw =>
      cases pc <;> simp only [step, exec] at h
      case loop_test =>
        split at h <;> simp only [Option.some.injEq, Prod.mk.injEq] at h <;>
          obtain ⟨-, rfl⟩ := h <;> simp
      case check_voltage =>
        split at h
        · exact absurd h (by simp)
        · split at h <;> simp only [Option.some.injEq, Prod.mk.injEq] at h <;>
            obtain ⟨-, rfl⟩ := h <;> simp
      case over_wait v =>
        split at h <;> simp only [Option.some.injEq, Prod.mk.injEq] at h <;>
          obtain ⟨-, rfl⟩ := h <;> simp
      case under_check v =>
        split at h <;> simp only [Option.some.injEq, Prod.mk.injEq] at h <;>
          obtain ⟨-, rfl⟩ := h <;> simp
      case under_wait v =>
        split at h <;> simp only [Option.some.injEq, Prod.mk.injEq] at h <;>
          obtain ⟨-, rfl⟩ := h <;> simp
      case manage v =>
        simp only [Option.some.injEq, Prod.mk.injEq] at h
        obtain ⟨-, rfl⟩ := h
        unfold manage_mofset
        simp only
        split_ifs <;> simp
      case clear_flag =>
        simp only [Option.some.injEq, Prod.mk.injEq] at h
        obtain ⟨-, rfl⟩ := h
        simp
      case led_update =>
        simp only [Option.some.injEq, Prod.mk.injEq] at h
        obtain ⟨-, rfl⟩ := h
        simp

theorem run_config (evs : List Event) :
    ∀ (pc pc1 : PC) (s s1 : State), run evs (pc, s) = some (pc1, s1) →
      s1.power_voltage = s.power_voltage ∧ s1.divisor_voltage = s.divisor_voltage ∧
        s1.min_voltage = s.min_voltage ∧ s1.max_voltage = s.max_voltage := by
  induction evs with
  | nil =>
      intro pc pc1 s s1 h
      simp only [run, Option.some.injEq, Prod.mk.injEq] at h
      obtain ⟨-, rfl⟩ := h
      simp
  | cons e es ih =>
      intro pc pc1 s s1 h
      rw [run_cons] at h
      cases hs : step e (pc, s) with
      | none => rw [hs] at h; exact absurd h (by simp)
      | some c =>
          obtain ⟨pc2, s2⟩ := c
          rw [hs] at h
          have h1 := step_config e pc pc2 s s2 hs
          have h2 := ih pc2 pc1 s2 s1 (by simpa using h)
          exact ⟨h2.1.trans h1.1, h2.2.1.trans h1.2.1, h2.2.2.1.trans h1.2.2.1,
            h2.2.2.2.trans h1.2.2.2⟩

/-- With a non-zero calibration no step fails. -/
theorem step_defined (e : Event) (pc : PC) (s : State) (hd : s.divisor_voltage ≠ 0) :
    ∃ c, step e (pc, s) = some c := by
  cases e with
  | edge => exact ⟨_, rfl⟩
  | cpu raw =>
      cases pc <;> simp only [step, exec]
      case loop_test => split <;> exact ⟨_, rfl⟩
      case check_voltage =>
        simp only [source_voltage, hd, if_false]
        split <;> exact ⟨_, rfl⟩
      case over_wait v => split <;> exact ⟨_, rfl⟩
      case under_check v => split <;> exact ⟨_, rfl⟩
      case under_wait v => split <;> exact ⟨_, rfl⟩
      case manage v => exact ⟨_, rfl⟩
      case clear_flag => exact ⟨_, rfl⟩
      case led_update => exact ⟨_, rfl⟩

theorem run_defined (evs : List Event) :
    ∀ (pc : PC) (s : State), s.divisor_voltage ≠ 0 → ∃ c, run evs (pc, s) = some c := by
  induction evs with
  | nil => intro pc s _; exact ⟨_, rfl⟩
  | cons e es ih =>
      intro pc s hd
      obtain ⟨⟨pc1, s1⟩, h1⟩ := step_defined e pc s hd
      have hc := step_config e pc pc1 s s1 h1
      obtain ⟨c, h2⟩ := ih pc1 s1 (by rw [hc.2.1]; exact hd)
      exact ⟨c, by rw [run_cons, h1]; simpa using h2⟩

theorem Frozen.refl (s : State) : Frozen s s :=
  ⟨rfl, rfl, rfl, rfl, rfl, id⟩

theorem Frozen.trans (a b c : State) (h1 : Frozen a b) (h2 : Frozen b c) : Frozen a c :=
  ⟨h2.1.trans h1.1, h2.2.1.trans h1.2.1, h2.2.2.1.trans h1.2.2.1,
    h2.2.2.2.1.trans h1.2.2.2.1, h2.2.2.2.2.1.trans h1.2.2.2.2.1,
    fun h => h2.2.2.2.2.2 (h1.2.2.2.2.2 h)⟩

theorem frozen_isr (s : State) : Frozen s (NewDataReadyISR s) :=
  ⟨rfl, rfl, rfl, rfl, rfl, fun _ => rfl⟩

theorem frozen_update (s : State) :
    Frozen s { s with status_led := s.status_led.Update } :=
  ⟨rfl, rfl, rfl, rfl, rfl, id⟩

/-- The wait loop at line 127 on an infinite pattern: no schedule leaves it. -/
theorem over_wait_stays (v : ℚ) (evs : List Event) :
    ∀ s : State, s.status_led.pattern.forever = true →
      ∃ s1, run evs (PC.over_wait v, s) = some (PC.over_wait v, s1) ∧ Frozen s s1 := by
  induction evs with
  | nil => intro s _; exact ⟨s, rfl, Frozen.refl s⟩
  | cons e es ih =>
      intro s hf
      cases e with
      | edge =>
          obtain ⟨s1, h1, hfr⟩ := ih (NewDataReadyISR s) hf
          refine ⟨s1, ?_, Frozen.trans _ _ _ (frozen_isr s) hfr⟩
          rw [run_cons]; simpa [step] using h1
      | cpu raw =>
          have hrun : s.status_led.IsRunning = true := by simp [JLed.IsRunning, hf]
          obtain ⟨s1, h1, hfr⟩ := ih { s with status_led := s.status_led.Update } hf
          refine ⟨s1, ?_, Frozen.trans _ _ _ (frozen_update s) hfr⟩
          rw [run_cons]; simpa [step, exec, hrun] using h1

/-- The wait loop at line 135 on an infinite pattern: no schedule leaves it. -/
theorem under_wait_stays (v : ℚ) (evs : List Event) :
    ∀ s : State, s.status_led.pattern.forever = true →
      ∃ s1, run evs (PC.under_wait v, s) = some (PC.under_wait v, s1) ∧ Frozen s s1 := by
  induction evs with
  | nil => intro s _; exact ⟨s, rfl, Frozen.refl s⟩
  | cons e es ih =>
      intro s hf
      cases e with
      | edge =>
          obtain ⟨s1, h1, hfr⟩ := ih (NewDataReadyISR s) hf
          refine ⟨s1, ?_, Frozen.trans _ _ _ (frozen_isr s) hfr⟩
          rw [run_cons]; simpa [step] using h1
      | cpu raw =>
          have hrun : s.status_led.IsRunning = true := by simp [JLed.IsRunning, hf]
          obtain ⟨s1, h1, hfr⟩ := ih { s with status_led := s.status_led.Update } hf
          refine ⟨s1, ?_, Frozen.trans _ _ _ (frozen_update s) hfr⟩
          rw [run_cons]; simpa [step, exec, hrun] using h1

/-- From the under-voltage test with a reading below the bound: the schedule is
either still before the test or inside the wait loop at line 135. -/
theorem under_check_enters (v : ℚ) (evs : List Event) :
    ∀ s : State, v < s.min_voltage →
      ∃ pc1 s1, run evs (PC.under_check v, s) = some (pc1, s1) ∧
        (pc1 = PC.under_check v ∧ Frozen s s1 ∨
          pc1 = PC.under_wait v ∧ s1.status_led.pattern = under_voltage_pattern ∧
            s1.mofset_on = s.mofset_on ∧ s1.mofset_pin = s.mofset_pin ∧
            s1.fetched = s.fetched) := by
  induction evs with
  | nil => intro s _; exact ⟨_, s, rfl, Or.inl ⟨rfl, Frozen.refl s⟩⟩
  | cons e es ih =>
      intro s hlt
      cases e with
      | edge =>
          obtain ⟨pc1, s1, h1, hcase⟩ := ih (NewDataReadyISR s) hlt
          refine ⟨pc1, s1, by rw [run_cons]; simpa [step] using h1, ?_⟩
          rcases hcase with ⟨hpc, hfr⟩ | ⟨hpc, hpat, hon, hpin, hfe⟩
          · exact Or.inl ⟨hpc, Frozen.trans _ _ _ (frozen_isr s) hfr⟩
          · exact Or.inr ⟨hpc, hpat, hon, hpin, hfe⟩
      | cpu raw =>
          obtain ⟨s1, h1, hfr⟩ := under_wait_stays v es
            { s with status_led := JLed.request under_voltage_pattern } rfl
          refine ⟨_, s1, by rw [run_cons]; simpa [step, exec, hlt] using h1, Or.inr ?_⟩
          exact ⟨rfl, hfr.2.2.2.1, hfr.1, hfr.2.1, hfr.2.2.1⟩

/-! ## Hysteresis (C1) -/

/-- C1. One call of `manage_mofset v`, with the compiled-in thresholds
36.1 < 36.2: a disengaged switch with `v >= start_resistor` is engaged (flag and
output line); an engaged switch with `v <= stop_resistor` is disengaged; in
every other case the call changes nothing. Starting disengaged, the readings
36.0, 36.2, 36.15, 36.1, 36.05 give the switch sequence off, on, on, off,
off. -/
theorem manage_mofset_hysteresis (v : ℚ) (s : State) :
    (stop_resistor = 361 / 10 ∧ start_resistor = 362 / 10 ∧ stop_resistor < start_resistor) ∧
    (s.mofset_on = false → v ≥ start_resistor →
      (manage_mofset v s).mofset_on = true ∧ (manage_mofset v s).mofset_pin = true) ∧
    (s.mofset_on = true → v ≤ stop_resistor →
      (manage_mofset v s).mofset_on = false ∧ (manage_mofset v s).mofset_pin = false) ∧
    (¬ (s.mofset_on = false ∧ v ≥ start_resistor) →
      ¬ (s.mofset_on = true ∧ v ≤ stop_resistor) → manage_mofset v s = s) ∧
    switch_sequence [36, 362 / 10, 3615 / 100, 361 / 10, 3605 / 100] boot
      = [false, true, true, false, false] := by
  have hlt : stop_resistor < start_resistor := by
    unfold stop_resistor start_resistor; norm_num
  refine ⟨⟨rfl, rfl, hlt⟩, ?_, ?_, ?_, by decide!⟩
  · intro hoff hge
    have hnot : ¬ v ≤ stop_resistor := by
      intro hle
      exact absurd (lt_of_lt_of_le hlt hge) (not_lt.mpr hle)
    simp [manage_mofset, hoff, hge, hnot]
  · intro hon hle
    simp [manage_mofset, hon, hle]
  · intro h1 h2
    cases hon : s.mofset_on with
    | false =>
        have hge : ¬ v ≥ start_resistor := fun h => h1 ⟨hon, h⟩
        simp [manage_mofset, hon, hge]
    | true =>
        have hle : ¬ v ≤ stop_resistor := fun h => h2 ⟨hon, h⟩
        simp [manage_mofset, hon, hle]

/-- C1, at a concrete input: from `boot` (disengaged) the reading 36.2 engages
the switch. -/
theorem manage_mofset_hysteresis_witness :
    (manage_mofset (362 / 10) boot).mofset_on = true ∧
      (manage_mofset (362 / 10) boot).mofset_pin = true :=
  (manage_mofset_hysteresis (362 / 10) boot).2.1 rfl (by decide!)

/-! ## Alarms (C2, C3, C4) -/

/-- C2. A reading above `max_voltage`, with the switch in either state, enters
the over-voltage alarm (line 125), and whatever the schedule that follows
(edges and main-thread steps, with any conversion results), the main thread is
still in the wait loop at line 127: `check_voltage` has not returned, the
switch flag and output line are unchanged, no further conversion is fetched, and
the fresh-sample flag, never tested again, is never cleared. The same holds
when the reading is taken by a `loop` iteration that found the flag set. -/
theorem over_voltage_terminal (s : State) (raw : Int) (v : ℚ)
    (hv : source_voltage s (computeVolts raw) = some v) (hover : v > s.max_voltage)
    (evs : List Event) :
    (∃ s1, run (Event.cpu raw :: evs) (PC.check_voltage, s) = some (PC.over_wait v, s1) ∧
      s1.status_led.pattern = over_voltage_pattern ∧
      s1.mofset_on = s.mofset_on ∧ s1.mofset_pin = s.mofset_pin ∧
      s1.fetched = s.fetched ++ [raw] ∧ (s.new_data = true → s1.new_data = true)) ∧
    (s.new_data = true → ∀ r0 : Int,
      ∃ s1, run (Event.cpu r0 :: Event.cpu raw :: evs) (PC.loop_test, s)
          = some (PC.over_wait v, s1) ∧
        s1.mofset_on = s.mofset_on ∧ s1.mofset_pin = s.mofset_pin ∧
        s1.fetched = s.fetched ++ [raw] ∧ s1.new_data = true) := by
  obtain ⟨s1, h1, hfr⟩ := over_wait_stays v evs
    { s with fetched := s.fetched ++ [raw],
             status_led := JLed.request over_voltage_pattern } rfl
  have hrun : run (Event.cpu raw :: evs) (PC.check_voltage, s) = some (PC.over_wait v, s1) := by
    rw [run_cons]; simpa [step, exec, hv, hover] using h1
  refine ⟨⟨s1, hrun, hfr.2.2.2.1, hfr.1, hfr.2.1, hfr.2.2.1, hfr.2.2.2.2.2⟩, ?_⟩
  intro hnd r0
  refine ⟨s1, ?_, hfr.1, hfr.2.1, hfr.2.2.1, hfr.2.2.2.2.2 hnd⟩
  rw [run_cons]; simpa [step, exec, hnd] using hrun

/-- C2, at a concrete input: in the state reached by `setup`, the raw code
32000 (44.0 V) is above `max_voltage`, and the schedule "edge, step, edge, step"
after it leaves the main thread in the over-voltage wait loop. -/
theorem over_voltage_terminal_witness :
    (∃ s1, run (Event.cpu 32000 :: [Event.edge, Event.cpu 20000, Event.edge, Event.cpu 26182])
          (PC.check_voltage, ready) = some (PC.over_wait 44, s1) ∧
      s1.status_led.pattern = over_voltage_pattern ∧
      s1.mofset_on = ready.mofset_on ∧ s1.mofset_pin = ready.mofset_pin ∧
      s1.fetched = ready.fetched ++ [32000] ∧ (ready.new_data = true → s1.new_data = true)) ∧
    (ready.new_data = true → ∀ r0 : Int,
      ∃ s1, run (Event.cpu r0 :: Event.cpu 32000 ::
            [Event.edge, Event.cpu 20000, Event.edge, Event.cpu 26182]) (PC.loop_test, ready)
          = some (PC.over_wait 44, s1) ∧
        s1.mofset_on = ready.mofset_on ∧ s1.mofset_pin = ready.mofset_pin ∧
        s1.fetched = ready.fetched ++ [32000] ∧ s1.new_data = true) :=
  over_voltage_terminal ready 32000 44 (by decide!) (by decide!) _

/-- C3. A reading below `min_voltage` and not above `max_voltage` enters the
under-voltage alarm (line 133) and no schedule leaves the wait loop at line 135;
the pattern requested there (blink 250/750, repeat 3, delay 2000, forever)
is not the one requested for over-voltage (blink 250/750, repeat 2, delay 2000,
forever); with `min_voltage <= max_voltage`, a reading equal to either bound
requests no alarm pattern and reaches `manage_mofset`. -/
theorem under_voltage_terminal (s : State) (raw r1 : Int) (v : ℚ)
    (hv : source_voltage s (computeVolts raw) = some v) (evs : List Event) :
    (v < s.min_voltage → ¬ v > s.max_voltage →
      ∃ s1, run (Event.cpu raw :: Event.cpu r1 :: evs) (PC.check_voltage, s)
          = some (PC.under_wait v, s1) ∧
        s1.status_led.pattern = under_voltage_pattern ∧
        s1.mofset_on = s.mofset_on ∧ s1.mofset_pin = s.mofset_pin ∧
        s1.fetched = s.fetched ++ [raw]) ∧
    (under_voltage_pattern =
        { effect := Effect.blink 250 750, repeat_count := 3, delay_after := 2000,
          forever := true } ∧
      over_voltage_pattern =
        { effect := Effect.blink 250 750, repeat_count := 2, delay_after := 2000,
          forever := true } ∧
      under_voltage_pattern ≠ over_voltage_pattern) ∧
    (s.min_voltage ≤ s.max_voltage → v = s.min_voltage ∨ v = s.max_voltage →
      run [Event.cpu raw, Event.cpu r1] (PC.check_voltage, s)
        = some (PC.manage v, { s with fetched := s.fetched ++ [raw] })) := by
  refine ⟨?_, ⟨rfl, rfl, by decide⟩, ?_⟩
  · intro hlt hmax
    obtain ⟨s1, h1, hfr⟩ := under_wait_stays v evs
      { s with fetched := s.fetched ++ [raw],
               status_led := JLed.request under_voltage_pattern } rfl
    refine ⟨s1, ?_, hfr.2.2.2.1, hfr.1, hfr.2.1, hfr.2.2.1⟩
    simpa [run_cons, step, exec, hv, hmax, hlt] using h1
  · intro hle hb
    have hmax : ¬ v > s.max_voltage := by
      rcases hb with h | h <;> rw [h] <;> simp [hle]
    have hmin : ¬ v < s.min_voltage := by
      rcases hb with h | h <;> rw [h] <;> simp [hle]
    simp [run, step, exec, hv, hmax, hmin]

/-- C3, at concrete inputs: in the state reached by `setup` the raw code 20000
(27.5 V) is under `min_voltage`; with a calibration of 4.5 V the raw code 28800
reads exactly `min_voltage` = 28.8 V. -/
theorem under_voltage_terminal_witness :
    (∃ s1, run (Event.cpu 20000 :: Event.cpu 0 :: [Event.edge, Event.cpu 26182])
          (PC.check_voltage, ready) = some (PC.under_wait (55 / 2), s1) ∧
        s1.status_led.pattern = under_voltage_pattern ∧
        s1.mofset_on = ready.mofset_on ∧ s1.mofset_pin = ready.mofset_pin ∧
        s1.fetched = ready.fetched ++ [20000]) ∧
    run [Event.cpu 28800, Event.cpu 0] (PC.check_voltage, { ready with divisor_voltage := 9 / 2 })
      = some (PC.manage (288 / 10),
          { ({ ready with divisor_voltage := 9 / 2 } : State) with fetched := [28800] }) :=
  ⟨(under_voltage_terminal ready 20000 0 (55 / 2) (by decide!)
      [Event.edge, Event.cpu 26182]).1 (by decide!) (by decide!),
   (under_voltage_terminal { ready with divisor_voltage := 9 / 2 } 28800 0 (288 / 10)
      (by decide!) []).2.2 (by decide!) (Or.inl (by decide!))⟩

/-- C4. For an out-of-range reading (above `max_voltage` or below
`min_voltage`) and either switch state, after any schedule following the fetch
the switch flag and the output line are what they were before it, and the main
thread is in the alarm path (lines 127, 131-135). -/
theorem alarm_keeps_switch (s : State) (raw : Int) (v : ℚ)
    (hv : source_voltage s (computeVolts raw) = some v)
    (hout : v > s.max_voltage ∨ v < s.min_voltage) (evs : List Event) :
    ∃ pc1 s1, run (Event.cpu raw :: evs) (PC.check_voltage, s) = some (pc1, s1) ∧
      s1.mofset_on = s.mofset_on ∧ s1.mofset_pin = s.mofset_pin ∧
      (pc1 = PC.over_wait v ∨ pc1 = PC.under_check v ∨ pc1 = PC.under_wait v) := by
  by_cases hover : v > s.max_voltage
  · obtain ⟨s1, h1, hfr⟩ := over_wait_stays v evs
      { s with fetched := s.fetched ++ [raw],
               status_led := JLed.request over_voltage_pattern } rfl
    refine ⟨_, s1, ?_, hfr.1, hfr.2.1, Or.inl rfl⟩
    rw [run_cons]; simpa [step, exec, hv, hover] using h1
  · have hlt : v < s.min_voltage := hout.resolve_left hover
    obtain ⟨pc1, s1, h1, hcase⟩ := under_check_enters v evs
      { s with fetched := s.fetched ++ [raw] } hlt
    have hrun : run (Event.cpu raw :: evs) (PC.check_voltage, s) = some (pc1, s1) := by
      rw [run_cons]; simpa [step, exec, hv, hover] using h1
    rcases hcase with ⟨hpc, hfr⟩ | ⟨hpc, -, hon, hpin, -⟩
    · exact ⟨pc1, s1, hrun, hfr.1, hfr.2.1, Or.inr (Or.inl hpc)⟩
    · exact ⟨pc1, s1, hrun, hon, hpin, Or.inr (Or.inr hpc)⟩

/-- C4, at a concrete input: the switch is engaged, the raw code 20000
(27.5 V) is under `min_voltage`, and after "step, edge, step" the switch is
still engaged. -/
theorem alarm_keeps_switch_witness :
    ∃ pc1 s1, run (Event.cpu 20000 :: [Event.cpu 0, Event.edge, Event.cpu 0])
        (PC.check_voltage, { ready with mofset_on := true, mofset_pin := true })
        = some (pc1, s1) ∧
      s1.mofset_on = true ∧ s1.mofset_pin = true ∧
      (pc1 = PC.over_wait (55 / 2) ∨ pc1 = PC.under_check (55 / 2) ∨
        pc1 = PC.under_wait (55 / 2)) :=
  alarm_keeps_switch { ready with mofset_on := true, mofset_pin := true } 20000 (55 / 2)
    (by decide!) (Or.inr (by decide!)) _

/-! ## The fresh-sample flag (C5, C6) -/

theorem manage_mofset_flag (v : ℚ) (s : State) :
    (manage_mofset v s).new_data = s.new_data ∧ (manage_mofset v s).fetched = s.fetched := by
  unfold manage_mofset
  simp only
  split_ifs <;> simp

theorem manage_mofset_switch (v : ℚ) (s t : State)
    (hon : s.mofset_on = t.mofset_on) (hpin : s.mofset_pin = t.mofset_pin) :
    (manage_mofset v s).mofset_on = (manage_mofset v t).mofset_on ∧
      (manage_mofset v s).mofset_pin = (manage_mofset v t).mofset_pin := by
  unfold manage_mofset
  simp only [hon]
  split_ifs <;> simp_all

/-- C5, as stated, fails. In the state reached by `setup`: an edge, the test
at line 145 (flag set), the fetch of code 26182 (36.0 V, in range); then a second
edge, so that the flag is set again after the fetch and before the clear. The
iteration goes on to line 150 and clears the flag; the next iteration's test
finds it clear and goes straight to line 154. One code was fetched for two
edges, and it is the one from before the second edge. -/
theorem flag_lost_between_fetch_and_clear :
    run [Event.edge, Event.cpu 26182, Event.cpu 26182, Event.edge] (PC.loop_test, ready)
      = some (PC.under_check (144001 / 4000),
          { ready with new_data := true, fetched := [26182] }) ∧
    run [Event.edge, Event.cpu 26182, Event.cpu 26182, Event.edge,
        Event.cpu 26190, Event.cpu 26190, Event.cpu 26190, Event.cpu 26190, Event.cpu 26190]
        (PC.loop_test, ready)
      = some (PC.led_update,
          { ready with
            new_data := false
            fetched := [26182]
            status_led := { pattern := startup_pattern, elapsed := 2501 } }) := by
  constructor <;> decide!

/-- C5, amended. The flag is tested at line 145 and cleared by a separate
assignment at line 150. An edge that arrives while the main thread is at the
test, or at the indicator update before it, is observed as ready by that test.
An edge that arrives after the fetch and before the clear (at the under-voltage
test of an in-range reading, at the call of `manage_mofset`, or at the clear
itself) is erased by the clear: the next test observes not-ready and nothing
more is fetched. -/
theorem flag_handoff (s : State) (raw : Int) (v : ℚ) :
    run [Event.edge, Event.cpu raw] (PC.loop_test, s)
      = some (PC.check_voltage, NewDataReadyISR s) ∧
    run [Event.edge, Event.cpu raw, Event.cpu raw] (PC.led_update, s)
      = some (PC.check_voltage,
          { NewDataReadyISR s with status_led := s.status_led.Update }) ∧
    (¬ v < s.min_voltage →
      ∃ s1, run [Event.edge, Event.cpu raw, Event.cpu raw, Event.cpu raw, Event.cpu raw,
            Event.cpu raw] (PC.under_check v, s) = some (PC.led_update, s1) ∧
        s1.new_data = false ∧ s1.fetched = s.fetched) ∧
    (∃ s1, run [Event.edge, Event.cpu raw, Event.cpu raw, Event.cpu raw, Event.cpu raw]
          (PC.manage v, s) = some (PC.led_update, s1) ∧
        s1.new_data = false ∧ s1.fetched = s.fetched) ∧
    run [Event.edge, Event.cpu raw, Event.cpu raw, Event.cpu raw] (PC.clear_flag, s)
      = some (PC.led_update,
          { s with new_data := false, status_led := s.status_led.Update }) := by
  have hm := manage_mofset_flag v (NewDataReadyISR s)
  refine ⟨?_, ?_, ?_, ?_, ?_⟩
  · simp [run, step, exec, NewDataReadyISR]
  · simp [run, step, exec, NewDataReadyISR]
  · intro hmin
    refine ⟨{ (manage_mofset v (NewDataReadyISR s)) with
        new_data := false,
        status_led := (manage_mofset v (NewDataReadyISR s)).status_led.Update }, ?_, ?_, ?_⟩
    · simp only [run, step, exec, Option.some_bind, Option.bind_some, hmin, if_false,
        NewDataReadyISR]
      simp only [Bool.false_eq_true, if_false]
    · rfl
    · simpa [NewDataReadyISR] using hm.2
  · refine ⟨{ (manage_mofset v (NewDataReadyISR s)) with
        new_data := false,
        status_led := (manage_mofset v (NewDataReadyISR s)).status_led.Update }, ?_, ?_, ?_⟩
    · simp only [run, step, exec, Option.some_bind, Option.bind_some, NewDataReadyISR]
      simp only [Bool.false_eq_true, if_false]
    · rfl
    · simpa [NewDataReadyISR] using hm.2
  · simp [run, step, exec, NewDataReadyISR]

/-- C5 amended, at a concrete input: in the state reached by `setup`, an
edge at the under-voltage test of the in-range reading 36.0 V is erased. -/
theorem flag_handoff_witness :
    ∃ s1, run [Event.edge, Event.cpu 0, Event.cpu 0, Event.cpu 0, Event.cpu 0, Event.cpu 0]
        (PC.under_check 36, ready) = some (PC.led_update, s1) ∧
      s1.new_data = false ∧ s1.fetched = ready.fetched :=
  (flag_handoff ready 0 36).2.2.1 (by decide!)

/-- C6. Two edges in a row, then an in-range reading `raw`: the next `loop`
iteration (six statements) finds the flag set, fetches exactly `raw`, calls
`manage_mofset`, clears the flag and is back at line 145; the iteration after it,
with no further edge, finds the flag clear, fetches nothing and leaves the
switch alone. -/
theorem double_edge_single_consumption (s : State) (raw r : Int) (v : ℚ)
    (hv : source_voltage s (computeVolts raw) = some v)
    (hmin : s.min_voltage ≤ v) (hmax : v ≤ s.max_voltage) :
    run [Event.edge, Event.edge, Event.cpu r] (PC.loop_test, s)
      = some (PC.check_voltage, NewDataReadyISR s) ∧
    ∃ s1, run [Event.edge, Event.edge, Event.cpu r, Event.cpu raw, Event.cpu r, Event.cpu r,
          Event.cpu r, Event.cpu r] (PC.loop_test, s) = some (PC.loop_test, s1) ∧
      s1.new_data = false ∧ s1.fetched = s.fetched ++ [raw] ∧
      s1.mofset_on = (manage_mofset v s).mofset_on ∧
      s1.mofset_pin = (manage_mofset v s).mofset_pin ∧
      run [Event.cpu r] (PC.loop_test, s1) = some (PC.led_update, s1) ∧
      run [Event.cpu r, Event.cpu r] (PC.loop_test, s1)
        = some (PC.loop_test, { s1 with status_led := s1.status_led.Update }) := by
  have h1 : ¬ v > s.max_voltage := not_lt.mpr hmax
  have h2 : ¬ v < s.min_voltage := not_lt.mpr hmin
  have hv1 : source_voltage (NewDataReadyISR s) (computeVolts raw) = some v := hv
  constructor
  · simp [run, step, exec, NewDataReadyISR]
  · let m : State :=
      manage_mofset v { s with new_data := true, fetched := s.fetched ++ [raw] }
    refine ⟨{ m with new_data := false, status_led := m.status_led.Update },
      ?_, rfl, ?_, ?_, ?_, ?_, ?_⟩
    · have e1 : run [Event.edge, Event.edge, Event.cpu r] (PC.loop_test, s)
          = some (PC.check_voltage, NewDataReadyISR s) := by
        simp [run, step, exec, NewDataReadyISR]
      have e2 : run [Event.cpu raw, Event.cpu r, Event.cpu r, Event.cpu r, Event.cpu r]
          (PC.check_voltage, NewDataReadyISR s)
          = some (PC.loop_test,
              { m with new_data := false, status_led := m.status_led.Update }) := by
        have h3 : ¬ v > (NewDataReadyISR s).max_voltage := h1
        have h4 : ¬ v < (NewDataReadyISR s).min_voltage := h2
        simp [run, step, exec, hv1, h3, h4]
        and_intros <;> rfl
      have e3 := run_append [Event.edge, Event.edge, Event.cpu r]
        [Event.cpu raw, Event.cpu r, Event.cpu r, Event.cpu r, Event.cpu r] (PC.loop_test, s)
      rw [e1] at e3
      simpa [e2] using e3
    · exact (manage_mofset_flag v _).2
    · exact (manage_mofset_switch v
        { s with new_data := true, fetched := s.fetched ++ [raw] } s rfl rfl).1
    · exact (manage_mofset_switch v
        { s with new_data := true, fetched := s.fetched ++ [raw] } s rfl rfl).2
    · simp [run, step, exec]
    · simp [run, step, exec]

/-- C6, at a concrete input: the state reached by `setup` and the raw code
26400 (36.3 V), which engages the switch in the single consumption cycle. -/
theorem double_edge_single_consumption_witness :
    ∃ s1, run [Event.edge, Event.edge, Event.cpu 0, Event.cpu 26400, Event.cpu 0, Event.cpu 0,
          Event.cpu 0, Event.cpu 0] (PC.loop_test, ready) = some (PC.loop_test, s1) ∧
      s1.new_data = false ∧ s1.fetched = ready.fetched ++ [26400] ∧
      s1.mofset_on = (manage_mofset (363 / 10) ready).mofset_on ∧
      s1.mofset_pin = (manage_mofset (363 / 10) ready).mofset_pin ∧
      run [Event.cpu 0] (PC.loop_test, s1) = some (PC.led_update, s1) ∧
      run [Event.cpu 0, Event.cpu 0] (PC.loop_test, s1)
        = some (PC.loop_test, { s1 with status_led := s1.status_led.Update }) :=
  (double_edge_single_consumption ready 26400 0 (363 / 10) (by decide!) (by decide!)
    (by decide!)).2

/-! ## Calibration and bounds (C7, C8, C9) -/

/-- C7. Whatever `divisor_voltage` holds at startup (zero or not), with a
non-zero `power_voltage` and positive `int` resistors, `setup` completes (when
the ADC answers and the startup blink has had time to finish) with a non-zero
`divisor_voltage`; no schedule of the main loop changes it afterwards, every
schedule is defined (line 120 never divides by zero), and the estimate has a
value for every raw code. -/
theorem divisor_voltage_nonzero (R1 R2 : Int) (s : State) (fuel : Nat)
    (hR1 : 0 < R1) (hR1int : R1 < 2 ^ 31) (hR2 : 0 < R2) (hR2int : R2 < 2 ^ 31)
    (hpower : s.power_voltage ≠ 0) (hfuel : 2500 < fuel) :
    ∃ s1, setup R1 R2 true fuel s = some s1 ∧ s1.divisor_voltage ≠ 0 ∧
      (∀ (evs : List Event) (pc : PC), ∃ pc2 s2, run evs (pc, s1) = some (pc2, s2) ∧
        s2.divisor_voltage = s1.divisor_voltage ∧
        ∀ raw : Int, ∃ v, source_voltage s2 (computeVolts raw) = some v) := by
  have hd := calibrated_divisor_ne_zero R1 R2 s hR1 hR1int hR2 hR2int hpower
  refine ⟨calibrated R1 R2 s, setup_eq R1 R2 fuel s hfuel, hd, ?_⟩
  intro evs pc
  obtain ⟨⟨pc2, s2⟩, hrun⟩ := run_defined evs pc (calibrated R1 R2 s) hd
  have hc := run_config evs pc pc2 (calibrated R1 R2 s) s2 hrun
  refine ⟨pc2, s2, hrun, hc.2.1, ?_⟩
  intro raw
  have hd2 : s2.divisor_voltage ≠ 0 := by rw [hc.2.1]; exact hd
  exact ⟨s2.power_voltage * (computeVolts raw / s2.divisor_voltage),
    by simp [source_voltage, hd2]⟩

/-- C7, at a concrete input: the compiled-in configuration, from `boot`
(where `divisor_voltage` is zero). -/
theorem divisor_voltage_nonzero_witness :
    ∃ s1, setup VD_R1 VD_R2 true 2501 boot = some s1 ∧ s1.divisor_voltage ≠ 0 ∧
      (∀ (evs : List Event) (pc : PC), ∃ pc2 s2, run evs (pc, s1) = some (pc2, s2) ∧
        s2.divisor_voltage = s1.divisor_voltage ∧
        ∀ raw : Int, ∃ v, source_voltage s2 (computeVolts raw) = some v) :=
  divisor_voltage_nonzero VD_R1 VD_R2 boot 2501 (by decide) (by decide) (by decide) (by decide)
    (by decide!) (by decide)

/-- C8. With the compiled-in resistors, `setup` replaces a zero
`divisor_voltage` by `power_voltage * 10000 / 110000`, which for
`power_voltage = 36.0` is exactly 36/11 (the quotient is not the truncated
`10000 / 110000 = 0` of an integer division); a non-zero `divisor_voltage` is
left as it was. -/
theorem divisor_voltage_default (s : State) (fuel : Nat) (hfuel : 2500 < fuel) :
    ∃ s1, setup VD_R1 VD_R2 true fuel s = some s1 ∧
      (s.divisor_voltage = 0 →
        s1.divisor_voltage = s.power_voltage * 10000 / 110000 ∧
        (s.power_voltage = 36 →
          s1.divisor_voltage = 36 / 11 ∧
          s1.divisor_voltage ≠ 36 * (((10000 / 110000 : Int)) : ℚ))) ∧
      (s.divisor_voltage ≠ 0 → s1.divisor_voltage = s.divisor_voltage) := by
  have hsum : int_add VD_R1 VD_R2 = 110000 := by decide
  have hr2 : VD_R2 = 10000 := rfl
  refine ⟨calibrated VD_R1 VD_R2 s, setup_eq VD_R1 VD_R2 fuel s hfuel, ?_, ?_⟩
  · intro h0
    have hdef : (calibrated VD_R1 VD_R2 s).divisor_voltage
        = s.power_voltage * 10000 / 110000 := by
      simp only [calibrated, h0, if_true]
      rw [hsum, hr2]
      norm_num
    refine ⟨hdef, ?_⟩
    intro h36
    rw [hdef, h36]
    norm_num
  · intro h0
    simp [calibrated, h0]

/-- C8, at a concrete input: `boot`, where `divisor_voltage` is zero and
`power_voltage` is 36.0. -/
theorem divisor_voltage_default_witness :
    ∃ s1, setup VD_R1 VD_R2 true 2501 boot = some s1 ∧
      (boot.divisor_voltage = 0 →
        s1.divisor_voltage = boot.power_voltage * 10000 / 110000 ∧
        (boot.power_voltage = 36 →
          s1.divisor_voltage = 36 / 11 ∧
          s1.divisor_voltage ≠ 36 * (((10000 / 110000 : Int)) : ℚ))) ∧
      (boot.divisor_voltage ≠ 0 → s1.divisor_voltage = boot.divisor_voltage) :=
  divisor_voltage_default boot 2501 (by decide)

/-- C9. After `setup`, `min_voltage = 0.8 * power_voltage` and
`max_voltage = 0.95 * 4.096 * (R1 + R2) / R2` with a rational (untruncated)
quotient, for all resistors whose sum fits an `int`; with the compiled-in
configuration (36.0, 100000, 10000) these are 28.8 and 42.8032. -/
theorem safety_bounds (R1 R2 : Int) (s : State) (fuel : Nat)
    (hlo : -2 ^ 31 ≤ R1 + R2) (hhi : R1 + R2 < 2 ^ 31) (hfuel : 2500 < fuel) :
    ∃ s1, setup R1 R2 true fuel s = some s1 ∧
      s1.min_voltage = 8 / 10 * s.power_voltage ∧
      s1.max_voltage = 95 / 100 * (4096 / 1000) * ((R1 : ℚ) + (R2 : ℚ)) / (R2 : ℚ) ∧
      (R1 = VD_R1 → R2 = VD_R2 → s.power_voltage = 36 →
        s1.min_voltage = 288 / 10 ∧ s1.max_voltage = 428032 / 10000) := by
  have hsum : int_add R1 R2 = R1 + R2 := int_add_exact R1 R2 hlo hhi
  have hmax : (calibrated R1 R2 s).max_voltage
      = 95 / 100 * (4096 / 1000) * ((R1 : ℚ) + (R2 : ℚ)) / (R2 : ℚ) := by
    simp only [calibrated, hsum]
    push_cast
    rfl
  refine ⟨calibrated R1 R2 s, setup_eq R1 R2 fuel s hfuel, rfl, hmax, ?_⟩
  intro h1 h2 h36
  refine ⟨?_, ?_⟩
  · simp only [calibrated, h36]
    norm_num
  · rw [hmax, h1, h2]
    simp only [VD_R1, VD_R2]
    norm_num

/-- C9, at a concrete input: the compiled-in configuration, from `boot`. -/
theorem safety_bounds_witness :
    ∃ s1, setup VD_R1 VD_R2 true 2501 boot = some s1 ∧
      s1.min_voltage = 8 / 10 * boot.power_voltage ∧
      s1.max_voltage = 95 / 100 * (4096 / 1000) * ((VD_R1 : ℚ) + (VD_R2 : ℚ)) / (VD_R2 : ℚ) ∧
      (VD_R1 = VD_R1 → VD_R2 = VD_R2 → boot.power_voltage = 36 →
        s1.min_voltage = 288 / 10 ∧ s1.max_voltage = 428032 / 10000) :=
  safety_bounds VD_R1 VD_R2 boot 2501 (by decide) (by decide) (by decide)

/-! ## The estimate (C10) -/

/-- C10. With a non-zero `divisor_voltage`, the estimate of line 120 has a value
for every divider-side voltage `d`, and the estimate for `2 * d` is exactly
twice the estimate for `d`; likewise for a doubled raw code. -/
theorem source_voltage_doubles (s : State) (d : ℚ) (raw : Int)
    (hd : s.divisor_voltage ≠ 0) :
    (∃ v, source_voltage s d = some v ∧ source_voltage s (2 * d) = some (2 * v)) ∧
    (∃ v, source_voltage s (computeVolts raw) = some v ∧
      source_voltage s (computeVolts (2 * raw)) = some (2 * v)) := by
  constructor
  · refine ⟨s.power_voltage * (d / s.divisor_voltage), by simp [source_voltage, hd], ?_⟩
    simp only [source_voltage, hd, if_false, Option.some.injEq]
    ring
  · refine ⟨s.power_voltage * (computeVolts raw / s.divisor_voltage),
      by simp [source_voltage, hd], ?_⟩
    simp only [source_voltage, hd, if_false, Option.some.injEq, computeVolts]
    push_cast
    ring

/-- C10, at a concrete input: in the state reached by `setup`, 1.5 V at the
divider is 16.5 V at the source and 3.0 V is 33.0 V. -/
theorem source_voltage_doubles_witness :
    source_voltage ready (3 / 2) = some (33 / 2) ∧ source_voltage ready 3 = some 33 := by
  obtain ⟨v, h1, h2⟩ := (source_voltage_doubles ready (3 / 2) 0 (by decide!)).1
  have hv : v = 33 / 2 := by
    have h3 : source_voltage ready (3 / 2) = some (33 / 2) := by decide!
    rw [h1] at h3
    exact Option.some.inj h3
  subst hv
  refine ⟨h1, ?_⟩
  have h4 : (2 : ℚ) * (3 / 2) = 3 := by norm_num
  have h5 : (2 : ℚ) * (33 / 2) = 33 := by norm_num
  rw [h4, h5] at h2
  exact h2

end VescOPV
